import Mathlib

/-!
Shallow embedding of the `pyval` email-validation library (Rust) and proofs
about its specification claims.

A Rust `&str` is modelled as a `List Char` of Unicode scalar values together
with its UTF-8 byte sequence (`utf8Encode`).  All byte-level loops of the
source are embedded over the byte list; char-level loops over the char list.
Rust panic points (slice indexing, `Option::unwrap`, `String::from_utf8(..)
.unwrap()`) are modelled by `Option`, with `none` standing for a panic.

External collaborator crates (idna, unicode-normalization, std IP parsers)
are not part of the repository source; they are modelled from the spec and
marked as such in their doc comments.
-/

namespace Pyval

/-- A Rust string slice, as its list of Unicode scalar values. -/
abbrev Str := List Char

/-- Number of bytes of the UTF-8 encoding of a scalar value. -/
def utf8Size (c : Char) : Nat :=
  if c.toNat < 0x80 then 1
  else if c.toNat < 0x800 then 2
  else if c.toNat < 0x10000 then 3
  else 4

/-- The UTF-8 bytes of one scalar value (each in 0..255). -/
def utf8Bytes (c : Char) : List Nat :=
  let n := c.toNat
  if n < 0x80 then [n]
  else if n < 0x800 then [0xC0 + n / 0x40, 0x80 + n % 0x40]
  else if n < 0x10000 then
    [0xE0 + n / 0x1000, 0x80 + (n / 0x40) % 0x40, 0x80 + n % 0x40]
  else
    [0xF0 + n / 0x40000, 0x80 + (n / 0x1000) % 0x40,
     0x80 + (n / 0x40) % 0x40, 0x80 + n % 0x40]

/-- UTF-8 byte sequence of a string; `s.as_bytes()` / `s.len()` in Rust read
this list and its length. -/
def utf8Encode (s : Str) : List Nat := s.flatMap utf8Bytes

/-- Rust `str::len` (byte length). -/
def utf8Len (s : Str) : Nat := (utf8Encode s).length

/-- Decode one scalar value from the front of a byte sequence; `none` on
anything that is not a valid UTF-8 leader (overlong forms, surrogates, stray
continuation bytes, out-of-range values all rejected). -/
def utf8DecodeOne : List Nat → Option (Char × List Nat)
  | [] => none
  | b :: rest =>
    if b < 0x80 then some (Char.ofNat b, rest)
    else if b < 0xC2 then none
    else if b < 0xE0 then
      match rest with
      | b2 :: r =>
        if (0x80 ≤ b2 ∧ b2 < 0xC0) ∧
            (0x80 ≤ (b - 0xC0) * 0x40 + (b2 - 0x80) ∧
              (b - 0xC0) * 0x40 + (b2 - 0x80) < 0x800) then
          some (Char.ofNat ((b - 0xC0) * 0x40 + (b2 - 0x80)), r)
        else none
      | [] => none
    else if b < 0xF0 then
      match rest with
      | b2 :: b3 :: r =>
        if (0x80 ≤ b2 ∧ b2 < 0xC0) ∧ (0x80 ≤ b3 ∧ b3 < 0xC0) ∧
            (0x800 ≤ (b - 0xE0) * 0x1000 + (b2 - 0x80) * 0x40 + (b3 - 0x80) ∧
              (b - 0xE0) * 0x1000 + (b2 - 0x80) * 0x40 + (b3 - 0x80) < 0x10000) ∧
            ¬ (0xD800 ≤ (b - 0xE0) * 0x1000 + (b2 - 0x80) * 0x40 + (b3 - 0x80) ∧
              (b - 0xE0) * 0x1000 + (b2 - 0x80) * 0x40 + (b3 - 0x80) < 0xE000) then
          some (Char.ofNat ((b - 0xE0) * 0x1000 + (b2 - 0x80) * 0x40 + (b3 - 0x80)), r)
        else none
      | _ => none
    else if b < 0xF5 then
      match rest with
      | b2 :: b3 :: b4 :: r =>
        if (0x80 ≤ b2 ∧ b2 < 0xC0) ∧ (0x80 ≤ b3 ∧ b3 < 0xC0) ∧
            (0x80 ≤ b4 ∧ b4 < 0xC0) ∧
            (0x10000 ≤ (b - 0xF0) * 0x40000 + (b2 - 0x80) * 0x1000 +
                (b3 - 0x80) * 0x40 + (b4 - 0x80) ∧
              (b - 0xF0) * 0x40000 + (b2 - 0x80) * 0x1000 +
                (b3 - 0x80) * 0x40 + (b4 - 0x80) < 0x110000) then
          some (Char.ofNat ((b - 0xF0) * 0x40000 + (b2 - 0x80) * 0x1000 +
            (b3 - 0x80) * 0x40 + (b4 - 0x80)), r)
        else none
      | _ => none
    else none

/-- Fuel-driven decoding loop; every step consumes at least one byte, so a
fuel equal to the byte count always reaches the empty list. -/
def utf8DecodeLoop : Nat → List Nat → Option Str
  | _, [] => some []
  | 0, _ :: _ => none
  | fuel + 1, b :: rest =>
    match utf8DecodeOne (b :: rest) with
    | none => none
    | some (c, r) => (utf8DecodeLoop fuel r).map (fun cs => c :: cs)

/-- UTF-8 decoder: `none` on any byte sequence that is not the encoding of a
scalar-value sequence.  Models `std::str::from_utf8` succeeding. -/
def utf8Decode (bs : List Nat) : Option Str := utf8DecodeLoop bs.length bs

/-- The closed error taxonomy of `error.rs` (`EmailError`). -/
inductive EmailError where
  | empty
  | missingAt
  | multipleAt
  | leadingDot
  | trailingDot
  | consecutiveDots
  | localPartTooLong
  | domainTooLong
  | invalidDomain
  | invalidCharacter
  | generic
deriving DecidableEq, Repr

/-- The output record of `validator.rs` (`ValidatedEmail`). -/
structure ValidatedEmail where
  original : Str
  local_part : Str
  domain : Str
  normalized : Str
  ascii_domain : Str
  smtputf8 : Bool
deriving DecidableEq, Repr

/-- Rust `char::is_whitespace`: the Unicode `White_Space` property
(the 25 code points with that property). -/
def isRustWhitespace (c : Char) : Bool :=
  let n := c.toNat
  (0x9 ≤ n && n ≤ 0xD) || n == 0x20 || n == 0x85 || n == 0xA0 ||
  n == 0x1680 || (0x2000 ≤ n && n ≤ 0x200A) || n == 0x2028 ||
  n == 0x2029 || n == 0x202F || n == 0x205F || n == 0x3000

/-- Rust `str::trim`: strip leading and trailing whitespace characters. -/
def rustTrim (s : Str) : Str :=
  ((s.dropWhile isRustWhitespace).reverse.dropWhile isRustWhitespace).reverse

/-! ## `syntax.rs` — local-part validation -/

/-- `syntax.rs::is_valid_local_byte`: RFC 5322 atext bytes, plus any byte
128..=255 when `allow_smtputf8` is set.  Byte values are written numerically;
the atext set is
A-Z a-z 0-9 and the symbols (33) (35) (36) (37) (38) (39) (42) (43)
(45) (47) (61) (63) (94) (95) (96) (123) (124) (125) (126) and the dot (46). -/
def is_valid_local_byte (b : Nat) (allow_smtputf8 : Bool) : Bool :=
  (97 ≤ b && b ≤ 122) || (65 ≤ b && b ≤ 90) || (48 ≤ b && b ≤ 57) ||
  b == 33 || b == 35 || b == 36 || b == 37 || b == 38 || b == 39 ||
  b == 42 || b == 43 || b == 45 || b == 47 ||
  b == 61 || b == 63 || b == 94 || b == 95 || b == 96 ||
  b == 123 || b == 124 || b == 125 || b == 126 || b == 46 ||
  (128 ≤ b && b ≤ 255 && allow_smtputf8)

/-- `syntax.rs::is_unsafe_unicode`: control characters (Rust
`char::is_control` is the Cc category: U+0000..=U+001F, U+007F,
U+0080..=U+009F), the zero-width characters U+200B..=U+200D, and the
byte-order mark U+FEFF. -/
def is_unsafe_unicode (c : Char) : Bool :=
  let n := c.toNat
  n < 0x20 || n == 0x7F || (0x80 ≤ n && n ≤ 0x9F) ||
  (0x200B ≤ n && n ≤ 0x200D) || n == 0xFEFF

/-- The single byte-level pass of `validate_local_part`: tracks
`prev_was_dot`; dots (byte 46) may not repeat; a non-dot byte must be a valid
local byte, with the `b >= 128 && allow_smtputf8` escape deferring Unicode
legality to the later char-level scan. -/
def localBytePass (allow_smtputf8 : Bool) : List Nat → Bool → Except EmailError Unit
  | [], _ => .ok ()
  | b :: rest, prev_was_dot =>
    if b == 46 then
      if prev_was_dot then .error .consecutiveDots
      else localBytePass allow_smtputf8 rest true
    else
      if is_valid_local_byte b allow_smtputf8 then
        localBytePass allow_smtputf8 rest false
      else
        -- source: `if b >= 128 && allow_smtputf8 { /* checked below */ }
        --          else { return InvalidCharacter }`
        if 128 ≤ b && allow_smtputf8 then localBytePass allow_smtputf8 rest false
        else .error .invalidCharacter

/-- The char-level re-scan of `validate_local_part`: the first scalar value
above 127 that `is_unsafe_unicode` accepts is an `InvalidCharacter`. -/
def unsafeUnicodePass : Str → Except EmailError Unit
  | [] => .ok ()
  | c :: rest =>
    if c.toNat > 127 && is_unsafe_unicode c then .error .invalidCharacter
    else unsafeUnicodePass rest

/-- `syntax.rs::validate_local_part`.  The `none` result models the two
panic points `bytes[0]` and `bytes[bytes.len() - 1]` (unreachable: they are
guarded by the emptiness check). -/
def validate_local_part (lp : Str) (allow_smtputf8 : Bool) :
    Option (Except EmailError Unit) :=
  let bytes := utf8Encode lp
  -- `local.is_empty()` is byte emptiness of the slice
  if bytes.isEmpty then some (.error .empty)
  else if 64 < bytes.length then some (.error .localPartTooLong)
  else
    match bytes.head?, bytes.getLast? with
    | some b0, some bl =>
      some (
        if b0 == 46 then .error .leadingDot
        else if bl == 46 then .error .trailingDot
        else
          match localBytePass allow_smtputf8 bytes false with
          | .error e => .error e
          | .ok () =>
            -- `if allow_smtputf8 && bytes.iter().any(|&b| b >= 128)`
            if allow_smtputf8 && bytes.any (fun b => 128 ≤ b) then
              unsafeUnicodePass lp
            else .ok ())
    | _, _ => none

/-! ## Spec-modelled collaborators

The spec lists these as external interfaces implemented outside the core
source: an IDNA Unicode-to-ASCII domain mapper, a Unicode
canonical-composition normalizer, and an IPv4/IPv6 literal parser. -/

/-- Rust `u8::is_ascii_digit` / `char::is_ascii_digit`. -/
def isAsciiDigit (c : Char) : Bool := 48 ≤ c.toNat && c.toNat ≤ 57

/-- Rust `char::is_ascii_alphanumeric`. -/
def isAsciiAlphanumeric (c : Char) : Bool :=
  (97 ≤ c.toNat && c.toNat ≤ 122) || (65 ≤ c.toNat && c.toNat ≤ 90) ||
  (48 ≤ c.toNat && c.toNat ≤ 57)

/-- Hexadecimal digit (for the IPv6 grammar). -/
def isHexDigit (c : Char) : Bool :=
  isAsciiDigit c || (97 ≤ c.toNat && c.toNat ≤ 102) ||
  (65 ≤ c.toNat && c.toNat ≤ 70)

/-- Decimal value of a digit string. -/
def digitsToNat (p : Str) : Nat := p.foldl (fun a c => a * 10 + (c.toNat - 48)) 0

/-- Modelled from the spec: one octet of the std IPv4 literal parser —
decimal digits only, value at most 255, no leading zero. -/
def ipv4Octet (p : Str) : Bool :=
  !p.isEmpty && p.all isAsciiDigit &&
  (p.length == 1 || p.head? != some '0') && digitsToNat p ≤ 255

/-- Modelled from the spec: the std IPv4 literal parser (`a.b.c.d`, four
octets). -/
def parseIpv4 (s : Str) : Bool :=
  let parts := s.splitOn '.'
  parts.length == 4 && parts.all ipv4Octet

/-- One 16-bit hexadecimal group of an IPv6 address. -/
def h16 (p : Str) : Bool := !p.isEmpty && p.length ≤ 4 && p.all isHexDigit

/-- All splits of `s` at an adjacent pair of colons.  A valid IPv6 literal
has at most one such pair. -/
def doubleColonSplits : Str → List (Str × Str)
  | [] => []
  | [_] => []
  | a :: b :: rest =>
    let tailSplits := (doubleColonSplits (b :: rest)).map
      (fun pr => (a :: pr.1, pr.2))
    if a == ':' && b == ':' then ([], rest) :: tailSplits else tailSplits

/-- Group list of a colon-separated fragment (empty fragment → no groups). -/
def colonGroups (s : Str) : List Str := if s.isEmpty then [] else s.splitOn ':'

/-- Tail groups may end in an embedded IPv4 address, which counts as two
16-bit groups. -/
def ipv6TailOk (parts : List Str) : Option Nat :=
  match parts.getLast? with
  | none => some 0
  | some last =>
    if last.contains '.' then
      if parts.dropLast.all h16 && parseIpv4 last then
        some (parts.length + 1)
      else none
    else if parts.all h16 then some parts.length else none

/-- Modelled from the spec: the std IPv6 literal parser — colon-separated
16-bit hexadecimal groups, at most one `::` elision standing for at least one
zero group, optionally ending in an embedded IPv4 address. -/
def parseIpv6 (s : Str) : Bool :=
  match doubleColonSplits s with
  | [] =>
    let parts := s.splitOn ':'
    if parts.any (fun p => p.isEmpty) then false
    else
      match ipv6TailOk parts with
      | some n => n == 8
      | none => false
  | [(a, b)] =>
    let pa := colonGroups a
    let pb := colonGroups b
    if pa.any (fun p => p.isEmpty) || pb.any (fun p => p.isEmpty) then false
    else if !pa.all h16 then false
    else
      match ipv6TailOk pb with
      | some n => pa.length + n ≤ 7
      | none => false
  | _ => false

/-! ### Punycode (RFC 3492), the ASCII-compatible encoding used by IDNA -/

/-- Punycode digit: 0..25 → a..z, 26..35 → 0..9. -/
def punyDigit (d : Nat) : Char :=
  if d < 26 then Char.ofNat (97 + d) else Char.ofNat (22 + d)

/-- Threshold `t` for digit position `k` under `bias` (tmin 1, tmax 26). -/
def punyThreshold (bias k : Nat) : Nat :=
  if k ≤ bias then 1 else if bias + 26 ≤ k then 26 else k - bias

/-- Variable-length integer encoding of `q` starting at digit position `k`.
Structural recursion on `fuel`, which bounds the digit count; the remaining
value `q` shrinks strictly each step (the threshold is at least 1), so
`q + 1` digits always suffice and the `fuel = 0` fallback is unreachable
from `punyEncodeIntF`. -/
def punyEncodeInt (bias : Nat) : Nat → Nat → Nat → List Char
  | _, _, 0 => []
  | q, k, fuel + 1 =>
    let t := punyThreshold bias k
    if q < t then [punyDigit q]
    else
      punyDigit (t + (q - t) % (36 - t)) ::
        punyEncodeInt bias ((q - t) / (36 - t)) (k + 36) fuel

/-- Variable-length integer encoding with adequate fuel. -/
def punyEncodeIntF (bias q k : Nat) : List Char := punyEncodeInt bias q k (q + 1)

/-- Bias adaptation inner loop of RFC 3492 `adapt`; `delta` shrinks by a
factor of 35 each step, so `delta + 1` units of fuel always suffice. -/
def punyAdaptLoop (k : Nat) : Nat → Nat → Nat
  | delta, 0 => k + (36 * delta) / (delta + 38)
  | delta, fuel + 1 =>
    if 455 < delta then punyAdaptLoop (k + 36) (delta / 35) fuel
    else k + (36 * delta) / (delta + 38)

/-- RFC 3492 `adapt` (damp 700, skew 38, base 36). -/
def punyAdapt (delta numpoints : Nat) (firsttime : Bool) : Nat :=
  let delta := if firsttime then delta / 700 else delta / 2
  let delta := delta + delta / numpoints
  punyAdaptLoop 0 delta (delta + 1)

/-- Inner pass of the punycode encoder: one sweep over the code points for
the current value `m`, emitting a variable-length integer for each
occurrence.  Returns the updated `(delta, bias, h, output)`. -/
def punyInner (b : Nat) : List Nat → Nat → Nat → Nat → Nat → List Char →
    Nat × Nat × Nat × List Char
  | [], _, delta, bias, h, acc => (delta, bias, h, acc)
  | c :: rest, m, delta, bias, h, acc =>
    let delta := if c < m then delta + 1 else delta
    if c == m then
      let acc := acc ++ punyEncodeIntF bias delta 36
      let bias := punyAdapt delta (h + 1) (h == b)
      punyInner b rest m 0 bias (h + 1) acc
    else punyInner b rest m delta bias h acc

/-- Outer loop of the punycode encoder; `fuel` bounds the number of passes
(one per distinct extended code point, so `cps.length + 1` always
suffices). -/
def punyOuter (cps : List Nat) (b fuel n delta bias h : Nat) (acc : List Char) :
    Option (List Char) :=
  if cps.length ≤ h then some acc
  else
    match fuel with
    | 0 => none
    | fuel + 1 =>
      match (cps.filter (fun c => n ≤ c)).min? with
      | none => none
      | some m =>
        let delta := delta + (m - n) * (h + 1)
        match punyInner b cps m delta bias h acc with
        | (delta, bias, h, acc) => punyOuter cps b fuel (m + 1) (delta + 1) bias h acc

/-- RFC 3492 punycode encoding of a label. -/
def punycodeEncode (label : Str) : Option (List Char) :=
  let cps := label.map Char.toNat
  let basic := cps.filter (fun c => c < 0x80)
  let b := basic.length
  let acc := basic.map Char.ofNat ++ (if 0 < b then [Char.ofNat 45] else [])
  punyOuter cps b (cps.length + 1) 0x80 0 72 b acc

/-- Modelled from the spec: the IDNA Unicode-to-ASCII domain mapper
(the `idna` collaborator crate, §6).  Per §4.3 and the §8 canonical example
(`ascii_domain = "Example.COM"`), an already-ASCII domain is returned
unchanged (case preserved); a label containing non-ASCII is replaced by
`xn--` followed by its punycode encoding (the "standard mapping … to an
ASCII-compatible encoding" of the glossary); `none` models its opaque
failure. -/
def domain_to_ascii (d : Str) : Option Str :=
  if (utf8Encode d).all (fun b => b < 128) then some d
  else
    match (d.splitOn '.').mapM (fun label =>
        if (utf8Encode label).all (fun b => b < 128) then some label
        else (punycodeEncode label).map (fun e => "xn--".data ++ e)) with
    | none => none
    | some labels => some (List.intercalate ['.'] labels)

/-- Modelled from the spec: the Unicode canonical-composition normalizer
(the `unicode-normalization` collaborator crate, §6), applied by the
orchestrator to non-ASCII local parts.  Modelled as the identity on the
scalar-value list; no claim settled here depends on composition details. -/
def nfc (s : Str) : Str := s

/-! ## `domain.rs` — domain validation -/

/-- `domain.rs::validate_domain_label`. -/
def validate_domain_label (label : Str) : Except EmailError Unit :=
  if label.isEmpty then .error .consecutiveDots
  else if 63 < utf8Len label then .error .invalidDomain
  else if label.head? == some '-' || label.getLast? == some '-' then
    .error .invalidDomain
  else if label.all (fun c => isAsciiAlphanumeric c || c == '-') then .ok ()
  else .error .invalidCharacter

/-- The `for label in &labels { validate_domain_label(label)?; }` loop:
first error wins. -/
def labelsPass : List Str → Except EmailError Unit
  | [] => .ok ()
  | l :: rest =>
    match validate_domain_label l with
    | .error e => .error e
    | .ok () => labelsPass rest

/-- `domain.rs::validate_ip_literal`.  The `none` result models the byte
slice `&domain[1..domain.len()-1]`, which panics when the string is shorter
than 2 bytes (unreachable: the caller checked both a leading and a trailing
bracket).  The bracket bytes are ASCII, so the byte slice coincides with
dropping the first and last scalar values. -/
def validate_ip_literal (domain : Str) : Option (Except EmailError Str) :=
  if 2 ≤ domain.length then
    let inner := (domain.drop 1).dropLast
    some (
      if "IPv6:".data.isPrefixOf inner then
        if parseIpv6 (inner.drop 5) then .ok domain else .error .invalidDomain
      else if parseIpv4 inner then .ok domain else .error .invalidDomain)
  else none

/-- `domain.rs::validate_domain`.  Checks, in source order: emptiness,
bracketed IP-literal form, the 253-byte length bound (on the domain as
given, before IDNA), IDNA-to-ASCII conversion, at-least-one-dot,
all-numeric-label rejection, and the per-label pass. -/
def validate_domain (domain : Str) : Option (Except EmailError Str) :=
  if domain.isEmpty then some (.error .invalidDomain)
  else if domain.head? == some '[' && domain.getLast? == some ']' then
    validate_ip_literal domain
  else if 253 < utf8Len domain then some (.error .domainTooLong)
  else
    match domain_to_ascii domain with
    | none => some (.error .invalidDomain)
    | some ascii_domain =>
      some (
        if !ascii_domain.contains '.' then .error .invalidDomain
        else
          let labels := ascii_domain.splitOn '.'
          if labels.all (fun label => label.all isAsciiDigit) then
            .error .invalidDomain
          else
            match labelsPass labels with
            | .error e => .error e
            | .ok () => .ok ascii_domain)

/-! ## `validator.rs` — the orchestrator -/

/-- Rust `u8::is_ascii_lowercase(b) || !u8::is_ascii_alphabetic(b)`, the
per-byte test of `ascii_to_lower`'s fast path. -/
def isLowerOrNonAlphaByte (b : Nat) : Bool :=
  (97 ≤ b && b ≤ 122) || !((65 ≤ b && b ≤ 90) || (97 ≤ b && b ≤ 122))

/-- Rust `u8::to_ascii_lowercase` applied to uppercase bytes only. -/
def toLowerByte (b : Nat) : Nat := if 65 ≤ b && b ≤ 90 then b + 32 else b

/-- `validator.rs::EmailValidator::ascii_to_lower`: either the string is
already free of uppercase ASCII and is returned as-is, or every byte is
ASCII-lowercased and the result is rebuilt with
`String::from_utf8(..).unwrap()` — the `none` result models that `unwrap`
panicking on a non-UTF-8 byte sequence. -/
def ascii_to_lower (s : Str) : Option Str :=
  if (utf8Encode s).all isLowerOrNonAlphaByte then some s
  else utf8Decode ((utf8Encode s).map toLowerByte)

/-- Rust `str::is_ascii` (all bytes below 128). -/
def isAsciiStr (s : Str) : Bool := (utf8Encode s).all (fun b => b < 128)

/-- The `@`-counting loop of `validate`: returns `MultipleAt` as soon as a
second `@` byte (64) is seen, `MissingAt` when none was found, and otherwise
the byte position of the unique `@`. -/
def atScanAux : List Nat → Nat → Option Nat → Except EmailError Nat
  | [], _, none => .error .missingAt
  | [], _, some p => .ok p
  | b :: rest, i, pos =>
    if b == 64 then
      match pos with
      | some _ => .error .multipleAt
      | none => atScanAux rest (i + 1) (some i)
    else atScanAux rest (i + 1) pos

def atScan (bytes : List Nat) : Except EmailError Nat := atScanAux bytes 0 none

/-- `validator.rs::EmailValidator::validate` (with `validate(email, flag)`
of `lib.rs` supplying `allow_smtputf8`).  The `none` result models the panic
points: the byte slices `&email[..at_pos]` / `&email[at_pos + 1..]` landing
off a char boundary (modelled by decoding the byte slices), the guarded
indexing inside `validate_local_part` and `validate_ip_literal`, and the
`unwrap` inside `ascii_to_lower`. -/
def validate (email : Str) (allow_smtputf8 : Bool) :
    Option (Except EmailError ValidatedEmail) :=
  let email := rustTrim email
  if email.isEmpty then some (.error .empty)
  else
    let bytes := utf8Encode email
    match atScan bytes with
    | .error e => some (.error e)
    | .ok at_pos =>
      match utf8Decode (bytes.take at_pos), utf8Decode (bytes.drop (at_pos + 1)) with
      | some local_part, some domain =>
        (match validate_local_part local_part allow_smtputf8 with
         | none => none
         | some (.error e) => some (.error e)
         | some (.ok ()) =>
           match validate_domain domain with
           | none => none
           | some (.error e) => some (.error e)
           | some (.ok ascii_domain) =>
             let normalized_local := if isAsciiStr local_part then local_part
                                     else nfc local_part
             match ascii_to_lower ascii_domain with
             | none => none
             | some lowered =>
               some (.ok {
                 original := email
                 local_part := local_part
                 domain := domain
                 normalized := normalized_local ++ '@' :: lowered
                 ascii_domain := ascii_domain
                 smtputf8 := !(isAsciiStr local_part) }))
      | _, _ => none

/-! ## `lazy.rs` — the zero-copy finite-state scanner -/

/-- The states of `lazy.rs::ParseState`. -/
inductive ParseState where
  | localStart
  | localState
  | localDot
  | domainStart
  | domainState
  | domainDot
deriving DecidableEq, Repr

/-- `lazy.rs::ZeroCopyValidator::is_local_char` (RFC 5322 atext without the
dot).  The symbol bytes are (33) (35) (36) (37) (38) (39) (42) (43) (45)
(47) (61) (63) (94) (95) (96) (123) (124) (125) (126). -/
def zc_is_local_char (b : Nat) : Bool :=
  (97 ≤ b && b ≤ 122) || (65 ≤ b && b ≤ 90) || (48 ≤ b && b ≤ 57) ||
  b == 33 || b == 35 || b == 36 || b == 37 || b == 38 || b == 39 ||
  b == 42 || b == 43 || b == 45 || b == 47 ||
  b == 61 || b == 63 || b == 94 || b == 95 || b == 96 ||
  b == 123 || b == 124 || b == 125 || b == 126

/-- `lazy.rs::ZeroCopyValidator::is_domain_char` (alphanumeric or hyphen). -/
def zc_is_domain_char (b : Nat) : Bool :=
  (97 ≤ b && b ≤ 122) || (65 ≤ b && b ≤ 90) || (48 ≤ b && b ≤ 57) || b == 45

/-- One transition of the `validate_no_alloc` state machine, on the state
and the counters `(at_count, dot_count)`; `none` models the early
`return false`.  Transcribed arm by arm from the source `match`, including
the two dead counter increments (in `LocalStart` the source counts a leading
`@` and still moves to `Local`; in `LocalDot` and `DomainStart` the counted
byte was already rejected). -/
def zcStep (st : ParseState) (b : Nat) (at_count dot_count : Nat) :
    Option (ParseState × Nat × Nat) :=
  match st with
  | .localStart =>
    if b == 46 then none
    else some (.localState, at_count + (if b == 64 then 1 else 0), dot_count)
  | .localState =>
    if b == 64 then
      if at_count + 1 > 1 then none
      else some (.domainStart, at_count + 1, 0)
    else if b == 46 then some (.localDot, at_count, dot_count)
    else if zc_is_local_char b then some (.localState, at_count, dot_count)
    else none
  | .localDot =>
    if b == 46 || b == 64 then none
    else some (.localState, at_count + (if b == 64 then 1 else 0), dot_count)
  | .domainStart =>
    if b == 46 || b == 45 then none
    else if b == 64 then none
    else some (.domainState, at_count, dot_count + (if b == 46 then 1 else 0))
  | .domainState =>
    if b == 64 then none
    else if b == 46 then some (.domainDot, at_count, dot_count + 1)
    else if zc_is_domain_char b then some (.domainState, at_count, dot_count)
    else none
  | .domainDot =>
    if b == 46 || b == 45 || b == 64 then none
    else some (.domainState, at_count, dot_count)

/-- The byte loop of `validate_no_alloc`. -/
def zcLoop : List Nat → ParseState → Nat → Nat → Bool
  | [], st, at_count, dot_count =>
    -- `matches!(state, Domain) && at_count == 1 && dot_count >= 1`
    st == .domainState && at_count == 1 && 1 ≤ dot_count
  | b :: rest, st, at_count, dot_count =>
    match zcStep st b at_count dot_count with
    | none => false
    | some (st, at_count, dot_count) => zcLoop rest st at_count dot_count

/-- `lazy.rs::ZeroCopyValidator::validate_no_alloc`.  (The byte-identical
state machine also appears in the binding crate's `lazy.rs`.) -/
def validate_no_alloc (email : Str) : Bool :=
  let bytes := utf8Encode email
  let len := bytes.length
  if !(3 ≤ len && len ≤ 254) then false
  else zcLoop bytes .localStart 0 0

/-! ## `simd.rs` — the SWAR pre-screen (identical in both crates) -/

/-- `simd.rs::SimdValidator::is_valid_ascii`: the 8-byte chunks are checked
only for the high bit (pure ASCII); the `len % 8` remainder bytes are
checked for the printable range 0x20..0x7F. -/
def simd_is_valid_ascii (bytes : List Nat) : Bool :=
  let chunked := bytes.length - bytes.length % 8
  (bytes.take chunked).all (fun b => b < 128) &&
  (bytes.drop chunked).all (fun b => 32 ≤ b && b < 128)

/-- `simd.rs::SimdValidator::count_at`: the SWAR chunking counts exactly the
`@` (64) bytes. -/
def simd_count_at (bytes : List Nat) : Nat := bytes.count 64

/-- `simd.rs::SimdValidator::find_at`: chunks are scanned in order, so the
result is the position of the first `@` byte. -/
def simd_find_at (bytes : List Nat) : Option Nat := bytes.findIdx? (fun b => b == 64)

/-- `simd.rs::PortableSimd::validate_email_fast`: `none` is the "escalate"
outcome.  After the ASCII screen the byte slice `&email[at_pos + 1..]` is
the bytes after the `@`, and `domain.contains('.')` is a byte-46 search. -/
def validate_email_fast (email : Str) : Option Bool :=
  let bytes := utf8Encode email
  if bytes.length < 16 then none
  else if !simd_is_valid_ascii bytes then none
  else if simd_count_at bytes != 1 then some false
  else
    match simd_find_at bytes with
    | none => none
    | some at_pos =>
      if at_pos == 0 || at_pos == bytes.length - 1 then some false
      else if !(bytes.drop (at_pos + 1)).contains 46 then some false
      else some true

/-! ## `src/fastpath.rs` (binding crate) — the lookup fast path -/

/-- `fastpath.rs::is_fast_local_char`: alphanumeric and bytes
(46) (45) (95) (43) (64). -/
def is_fast_local_char (b : Nat) : Bool :=
  (97 ≤ b && b ≤ 122) || (65 ≤ b && b ≤ 90) || (48 ≤ b && b ≤ 57) ||
  b == 46 || b == 45 || b == 95 || b == 43 || b == 64

/-- `fastpath.rs::is_fast_domain_char`: alphanumeric, dot, hyphen. -/
def is_fast_domain_char (b : Nat) : Bool :=
  (97 ≤ b && b ≤ 122) || (65 ≤ b && b ≤ 90) || (48 ≤ b && b ≤ 57) ||
  b == 46 || b == 45

/-- `fastpath.rs::COMMON_DOMAINS` (the binding crate's list; `icloud.com`
appears twice in the source array, the set contains it once). -/
def common_domains : List Str :=
  ["gmail.com".data, "yahoo.com".data, "hotmail.com".data, "outlook.com".data,
   "icloud.com".data, "protonmail.com".data, "yandex.com".data, "zoho.com".data,
   "mail.ru".data, "qq.com".data, "163.com".data, "126.com".data,
   "foxmail.com".data, "live.com".data, "msn.com".data, "aol.com".data,
   "proton.me".data, "hey.com".data, "fastmail.com".data, "gmx.com".data,
   "comcast.net".data, "verizon.net".data, "att.net".data, "me.com".data,
   "mac.com".data, "example.com".data, "test.com".data]

/-- The `0..len-1` window loop of `has_dot_issues`. -/
def hasConsecutivePair : List Nat → Bool
  | a :: c :: rest => (a == 46 && c == 46) || hasConsecutivePair (c :: rest)
  | _ => false

/-- `fastpath.rs::has_dot_issues` over a byte slice: empty, leading dot,
trailing dot, or two consecutive dots.  (The `s[0]` / `s[s.len()-1]`
accesses are guarded by the emptiness check.) -/
def has_dot_issues : List Nat → Bool
  | [] => true
  | b :: rest =>
    b == 46 || (b :: rest).getLast? == some 46 || hasConsecutivePair (b :: rest)

/-- `fastpath.rs::fast_ascii_email_check` (binding crate version): `none`
("escalate") arises from the two `?` operators (no `@`, no dot in the
domain) and from the first byte outside the fast character classes; the
early `return`s on the per-byte loops give the same result as `all`. -/
def fast_ascii_email_check (email : Str) : Option Bool :=
  let bytes := utf8Encode email
  if 254 < bytes.length || bytes.length < 3 then some false
  else
    match bytes.findIdx? (fun b => b == 64) with
    | none => none
    | some at_pos =>
      if (bytes.drop (at_pos + 1)).any (fun b => b == 64) then some false
      else
        let localBytes := bytes.take at_pos
        let domainBytes := bytes.drop (at_pos + 1)
        if localBytes.isEmpty || 64 < localBytes.length then some false
        else if domainBytes.length < 3 || 253 < domainBytes.length then some false
        else
          match domainBytes.findIdx? (fun b => b == 46) with
          | none => none
          | some dot_pos =>
            if dot_pos == 0 || dot_pos == domainBytes.length - 1 then some false
            else if !localBytes.all is_fast_local_char then none
            else if !domainBytes.all is_fast_domain_char then none
            else
              -- `str::from_utf8(domain)` then the common-domain set lookup
              if (utf8Decode domainBytes).elim false
                  (fun ds => common_domains.contains ds) then some true
              else if has_dot_issues localBytes || has_dot_issues domainBytes then
                some false
              else some true

/-! ## `src/lookup.rs` (binding crate) — lookup tables -/

/-- `lookup.rs::is_valid_local_byte_fast` (the `LOCAL_PART_TABLE`): RFC 5322
atext bytes including the dot; high bytes are 0 in the table. -/
def is_valid_local_byte_fast (b : Nat) : Bool :=
  (97 ≤ b && b ≤ 122) || (65 ≤ b && b ≤ 90) || (48 ≤ b && b ≤ 57) ||
  b == 33 || b == 35 || b == 36 || b == 37 || b == 38 || b == 39 ||
  b == 42 || b == 43 || b == 45 || b == 47 ||
  b == 61 || b == 63 || b == 94 || b == 95 || b == 96 ||
  b == 123 || b == 124 || b == 125 || b == 126 || b == 46

/-- `lookup.rs::is_valid_domain_byte_fast` (the `DOMAIN_TABLE`):
alphanumeric or hyphen. -/
def is_valid_domain_byte_fast (b : Nat) : Bool :=
  (97 ≤ b && b ≤ 122) || (65 ≤ b && b ≤ 90) || (48 ≤ b && b ≤ 57) || b == 45

/-! ## `src/lib.rs` (binding crate) — the tiered dispatcher -/

/-- The local-part byte loop of `is_valid_detailed` (lookup table plus the
`allow_smtputf8 && b >= 128` escape). -/
def detailedLocalPass (allow_smtputf8 : Bool) : List Nat → Bool → Bool
  | [], _ => true
  | b :: rest, prev_dot =>
    if b == 46 then
      if prev_dot then false else detailedLocalPass allow_smtputf8 rest true
    else if is_valid_local_byte_fast b then detailedLocalPass allow_smtputf8 rest false
    else if allow_smtputf8 && 128 ≤ b then detailedLocalPass allow_smtputf8 rest false
    else false

/-- The ASCII per-label check of `is_valid_detailed`. -/
def detailedLabelOk (label : Str) : Bool :=
  !label.isEmpty && utf8Len label ≤ 63 &&
  label.head? != some '-' && label.getLast? != some '-' &&
  (utf8Encode label).all is_valid_domain_byte_fast

/-- `lib.rs::is_valid_detailed` (binding crate).  Faithful to the source
flow: trim, `@`-scan (false on zero or several), split at the `@` byte
(always a char boundary, since `@` is ASCII — the unreachable decode
failure is mapped to `false`), local checks against the lookup table,
then the fast domain checks, falling back to `validate_domain(..).is_ok()`
for non-ASCII domains (whose `none` panic case is unreachable,
`validate_domain_isSome`). -/
def is_valid_detailed (email : Str) (allow_smtputf8 : Bool) : Bool :=
  let email := rustTrim email
  if email.isEmpty then false
  else
    let bytes := utf8Encode email
    match atScan bytes with
    | .error _ => false
    | .ok at_pos =>
      match utf8Decode (bytes.take at_pos), utf8Decode (bytes.drop (at_pos + 1)) with
      | some _lp, some domain =>
        let localBytes := bytes.take at_pos
        if localBytes.isEmpty || 64 < localBytes.length then false
        else if localBytes.head? == some 46 || localBytes.getLast? == some 46 then false
        else if !detailedLocalPass allow_smtputf8 localBytes false then false
        else
          let domainBytes := bytes.drop (at_pos + 1)
          if domainBytes.isEmpty || 253 < domainBytes.length then false
          else if !domain.contains '.' then false
          else if (domain.splitOn '.').all (fun label => label.all isAsciiDigit) then
            false
          else if isAsciiStr domain then
            (domain.splitOn '.').all detailedLabelOk
          else
            match validate_domain domain with
            | some (.ok _) => true
            | _ => false
      | _, _ => false

/-- `lib.rs::is_valid_fast` (binding crate): the SIMD pre-screen for
byte-length ≥ 32, then the lookup fast path, then the detailed check. -/
def is_valid_fast (email : Str) (allow_smtputf8 : Bool) : Bool :=
  match (if 32 ≤ utf8Len email then validate_email_fast email else none) with
  | some result => result
  | none =>
    match fast_ascii_email_check email with
    | some result => result
    | none => is_valid_detailed email allow_smtputf8

/-- `lib.rs::is_valid` (the `#[pyfunction]` boolean entry point). -/
def is_valid (email : Str) (allow_smtputf8 : Bool) : Bool :=
  is_valid_fast email allow_smtputf8

/-- `pyval-core/src/lib.rs::is_valid`: the core crate's quick check is the
zero-copy scanner verbatim. -/
def core_is_valid (email : Str) : Bool := validate_no_alloc email

/-! ## `src/prefetch.rs` (binding crate) — pipelined batch validation -/

/-- The software-pipelined loop of `pipelined_validation`: for each
`i in 3..len` it computes `r3 = f(e[i])`, stores `r1` into `results[i-2]`
and rotates; afterwards `r1`/`r2` land in the last two slots.  `List.set`
leaves out-of-range writes silent, matching the always-in-range source
indexing. -/
def pipeLoop (emails : List Str) : Nat → Nat → Bool → Bool → List Bool →
    List Bool
  | 0, _, r1, r2, results =>
    (results.set (emails.length - 2) r1).set (emails.length - 1) r2
  | fuel + 1, i, r1, r2, results =>
    if i < emails.length then
      pipeLoop emails fuel (i + 1) r2 (is_valid_fast (emails.getD i []) true)
        (results.set (i - 2) r1)
    else (results.set (emails.length - 2) r1).set (emails.length - 1) r2
-- structural recursion on a fuel argument; the loop makes `len - 3`
-- iterations, so fuel `len` (passed below) always reaches the exit branch

/-- `prefetch.rs::pipelined_validation`: note the hard-coded
`allow_smtputf8 = true` in every `is_valid_fast` call. -/
def pipelined_validation (emails : List Str) : List Bool :=
  let len := emails.length
  if len < 4 then emails.map (fun e => is_valid_fast e true)
  else
    pipeLoop emails len 3
      (is_valid_fast (emails.getD 1 []) true)
      (is_valid_fast (emails.getD 2 []) true)
      ((List.replicate len false).set 0 (is_valid_fast (emails.getD 0 []) true))

/-- `lib.rs::batch_is_valid` (binding crate): lists longer than 16 go
through `pipelined_validation` (which ignores `allow_smtputf8`); shorter
lists map `is_valid_fast` with the given flag. -/
def batch_is_valid (emails : List Str) (allow_smtputf8 : Bool) : List Bool :=
  if 16 < emails.length then pipelined_validation emails
  else emails.map (fun e => is_valid_fast e allow_smtputf8)

deriving instance DecidableEq for Except

/-! ## Concrete inputs used by the claim theorems -/

/-- A 40-label all-`ü` domain: 119 bytes as written, 319 bytes after the
IDNA ASCII mapping. -/
def c5dom : Str := List.intercalate ['.'] (List.replicate 40 "ü".data)

/-- The ASCII mapping of `c5dom`: forty `xn--tda` labels. -/
def c5post : Str := List.intercalate ['.'] (List.replicate 40 "xn--tda".data)

/-- A well-formed ASCII domain of exactly 253 bytes (labels 63+63+63+61). -/
def d253 : Str :=
  List.intercalate ['.']
    [List.replicate 63 'a', List.replicate 63 'a', List.replicate 63 'a',
     List.replicate 61 'a']

/-- A well-formed ASCII domain of exactly 254 bytes (labels 63+63+63+62). -/
def d254 : Str :=
  List.intercalate ['.']
    [List.replicate 63 'a', List.replicate 63 'a', List.replicate 63 'a',
     List.replicate 62 'a']

/-- Seventeen copies of an address whose local part is non-ASCII: long
enough to take the pipelined batch path. -/
def c9emails : List Str := List.replicate 17 "üser@example.com".data

/-- The record produced for `a@b.com` (used by the C7 witness). -/
def c7rec : ValidatedEmail :=
  { original := "a@b.com".data, local_part := "a".data, domain := "b.com".data,
    normalized := "a@b.com".data, ascii_domain := "b.com".data,
    smtputf8 := false }

/-- The record produced for the padded input of the C10 witness. -/
def c10rec : ValidatedEmail :=
  { original := "a@b.com".data, local_part := "a".data, domain := "b.com".data,
    normalized := "a@b.com".data, ascii_domain := "b.com".data,
    smtputf8 := false }

/-- ASCII lowercase on one scalar value (used to describe the byte-level
`ascii_to_lower` at the char level). -/
def asciiLowerChar (c : Char) : Char :=
  if 65 ≤ c.toNat ∧ c.toNat ≤ 90 then Char.ofNat (c.toNat + 32) else c

/-! ## Supporting lemmas -/

theorem char_toNat_valid (c : Char) :
    c.toNat < 0xD800 ∨ (0xE000 ≤ c.toNat ∧ c.toNat < 0x110000) := c.valid

theorem toNat_ofNat_valid {n : Nat} (h : n.isValidChar) :
    (Char.ofNat n).toNat = n := by
  unfold Char.ofNat
  rw [dif_pos h]
  rfl

theorem isValidChar_of_lt {n : Nat} (h : n < 0xD800) : n.isValidChar := Or.inl h

theorem utf8Bytes_ne_nil (c : Char) : utf8Bytes c ≠ [] := by
  by_cases h1 : c.toNat < 0x80
  · simp [utf8Bytes, h1]
  · by_cases h2 : c.toNat < 0x800
    · simp [utf8Bytes, h1, h2]
    · by_cases h3 : c.toNat < 0x10000 <;> simp [utf8Bytes, h1, h2, h3]

theorem utf8Encode_nil_iff (s : Str) : utf8Encode s = [] ↔ s = [] := by
  cases s with
  | nil => simp [utf8Encode]
  | cons c t =>
    simp only [utf8Encode, List.flatMap_cons]
    constructor
    · intro h
      exact absurd (List.append_eq_nil.mp h).1 (utf8Bytes_ne_nil c)
    · intro h
      exact absurd h (by simp)

/-- Decoding one scalar value from its own encoding followed by anything
peels off exactly that value. -/
theorem utf8DecodeOne_encode (c : Char) (bs : List Nat) :
    utf8DecodeOne (utf8Bytes c ++ bs) = some (c, bs) := by
  have hval := char_toNat_valid c
  by_cases h1 : c.toNat < 0x80
  · have hb : utf8Bytes c ++ bs = c.toNat :: bs := by
      unfold utf8Bytes
      rw [if_pos h1]
      rfl
    rw [hb]
    simp only [utf8DecodeOne]
    rw [if_pos h1, Char.ofNat_toNat]
  · by_cases h2 : c.toNat < 0x800
    · have hb : utf8Bytes c ++ bs =
          (0xC0 + c.toNat / 0x40) :: (0x80 + c.toNat % 0x40) :: bs := by
        unfold utf8Bytes
        rw [if_neg h1, if_pos h2]
        rfl
      rw [hb]
      simp only [utf8DecodeOne]
      rw [if_neg (by omega), if_neg (by omega), if_pos (by omega)]
      rw [if_pos (by omega)]
      have hv : (0xC0 + c.toNat / 0x40 - 0xC0) * 0x40 +
          (0x80 + c.toNat % 0x40 - 0x80) = c.toNat := by omega
      rw [hv, Char.ofNat_toNat]
    · by_cases h3 : c.toNat < 0x10000
      · have hb : utf8Bytes c ++ bs =
            (0xE0 + c.toNat / 0x1000) :: (0x80 + (c.toNat / 0x40) % 0x40) ::
              (0x80 + c.toNat % 0x40) :: bs := by
          unfold utf8Bytes
          rw [if_neg h1, if_neg h2, if_pos h3]
          rfl
        rw [hb]
        simp only [utf8DecodeOne]
        rw [if_neg (by omega), if_neg (by omega), if_neg (by omega),
          if_pos (by omega)]
        rw [if_pos (by refine ⟨⟨by omega, by omega⟩, ⟨by omega, by omega⟩,
          ⟨by omega, by omega⟩, by omega⟩)]
        have hv : (0xE0 + c.toNat / 0x1000 - 0xE0) * 0x1000 +
            (0x80 + c.toNat / 0x40 % 0x40 - 0x80) * 0x40 +
            (0x80 + c.toNat % 0x40 - 0x80) = c.toNat := by omega
        rw [hv, Char.ofNat_toNat]
      · have hb : utf8Bytes c ++ bs =
            (0xF0 + c.toNat / 0x40000) :: (0x80 + (c.toNat / 0x1000) % 0x40) ::
              (0x80 + (c.toNat / 0x40) % 0x40) :: (0x80 + c.toNat % 0x40) ::
              bs := by
          unfold utf8Bytes
          rw [if_neg h1, if_neg h2, if_neg h3]
          rfl
        rw [hb]
        simp only [utf8DecodeOne]
        rw [if_neg (by omega), if_neg (by omega), if_neg (by omega),
          if_neg (by omega), if_pos (by omega)]
        rw [if_pos (by refine ⟨⟨by omega, by omega⟩, ⟨by omega, by omega⟩,
          ⟨by omega, by omega⟩, by omega, by omega⟩)]
        have hv : (0xF0 + c.toNat / 0x40000 - 0xF0) * 0x40000 +
            (0x80 + c.toNat / 0x1000 % 0x40 - 0x80) * 0x1000 +
            (0x80 + c.toNat / 0x40 % 0x40 - 0x80) * 0x40 +
            (0x80 + c.toNat % 0x40 - 0x80) = c.toNat := by omega
        rw [hv, Char.ofNat_toNat]

theorem utf8DecodeLoop_encode :
    ∀ (s : Str) (fuel : Nat), (utf8Encode s).length ≤ fuel →
      utf8DecodeLoop fuel (utf8Encode s) = some s := by
  intro s
  induction s with
  | nil => intro fuel _; cases fuel <;> rfl
  | cons c t ih =>
    intro fuel hfuel
    have henc : utf8Encode (c :: t) = utf8Bytes c ++ utf8Encode t := by
      simp [utf8Encode]
    have hne : utf8Encode (c :: t) ≠ [] := by
      rw [Ne, utf8Encode_nil_iff]
      simp
    match fuel with
    | 0 =>
      exact absurd (Nat.le_zero.mp hfuel) (by simpa using hne)
    | fuel + 1 =>
      rw [henc]
      obtain ⟨b, rest, hcons⟩ : ∃ b rest, utf8Bytes c ++ utf8Encode t = b :: rest := by
        cases hbc : utf8Bytes c with
        | nil => exact absurd hbc (utf8Bytes_ne_nil c)
        | cons x xs => exact ⟨x, xs ++ utf8Encode t, by simp [hbc]⟩
      rw [hcons]
      show (match utf8DecodeOne (b :: rest) with
        | none => none
        | some (c, r) => (utf8DecodeLoop fuel r).map (fun cs => c :: cs)) = _
      rw [← hcons, utf8DecodeOne_encode]
      have hlen : (utf8Encode t).length ≤ fuel := by
        have h1 : 1 ≤ (utf8Bytes c).length := by
          cases hbc : utf8Bytes c with
          | nil => exact absurd hbc (utf8Bytes_ne_nil c)
          | cons x xs => simp
        have : (utf8Encode (c :: t)).length =
            (utf8Bytes c).length + (utf8Encode t).length := by
          rw [henc]; simp
        omega
      show (utf8DecodeLoop fuel (utf8Encode t)).map (fun cs => c :: cs) =
        some (c :: t)
      rw [ih fuel hlen]
      rfl

/-- `std::str::from_utf8` succeeds on every encoded string: decoding is a
left inverse of encoding. -/
theorem utf8Decode_encode (s : Str) : utf8Decode (utf8Encode s) = some s :=
  utf8DecodeLoop_encode s (utf8Encode s).length (Nat.le_refl _)

theorem dropWhile_dropWhile (p : Char → Bool) (l : List Char) :
    (l.dropWhile p).dropWhile p = l.dropWhile p := by
  cases h : l.dropWhile p with
  | nil => rfl
  | cons a t =>
    have hnot := List.head?_dropWhile_not p l
    rw [h] at hnot
    simp only [List.head?_cons] at hnot
    rw [List.dropWhile_cons_of_neg (by simp [hnot])]

theorem rustTrim_idem (s : Str) : rustTrim (rustTrim s) = rustTrim s := by
  have hT : rustTrim s =
      (((s.dropWhile isRustWhitespace).reverse.dropWhile isRustWhitespace)).reverse := rfl
  have h1 : (rustTrim s).dropWhile isRustWhitespace = rustTrim s := by
    rw [hT]
    cases hBr :
        ((s.dropWhile isRustWhitespace).reverse.dropWhile isRustWhitespace).reverse with
    | nil => rfl
    | cons a t =>
      have hhead :
          ((s.dropWhile isRustWhitespace).reverse.dropWhile
            isRustWhitespace).reverse.head? = some a := by rw [hBr]; rfl
      rw [List.head?_reverse] at hhead
      have hsplit :
          (s.dropWhile isRustWhitespace).reverse.takeWhile isRustWhitespace ++
            (s.dropWhile isRustWhitespace).reverse.dropWhile isRustWhitespace =
            (s.dropWhile isRustWhitespace).reverse := by simp
      have hlast : (s.dropWhile isRustWhitespace).reverse.getLast? = some a := by
        rw [← hsplit, List.getLast?_append, hhead]; rfl
      rw [List.getLast?_reverse] at hlast
      have hnw := List.head?_dropWhile_not isRustWhitespace s
      rw [hlast] at hnw
      rw [List.dropWhile_cons_of_neg (by simp [hnw])]
  have hrw : rustTrim (rustTrim s) =
      (((rustTrim s).dropWhile isRustWhitespace).reverse.dropWhile
        isRustWhitespace).reverse := rfl
  rw [hrw, h1, hT, List.reverse_reverse, dropWhile_dropWhile]

theorem toLowerByte_eq_self {b : Nat} (h : 90 < b) : toLowerByte b = b := by
  unfold toLowerByte
  rw [if_neg]
  simp only [Bool.and_eq_true, decide_eq_true_eq, not_and]
  omega

/-- ASCII-lowercasing the bytes of one scalar value is the encoding of the
ASCII-lowercased value: uppercase ASCII maps one byte to one byte, and every
byte of a multi-byte encoding is at least 0x80, outside the uppercase
range. -/
theorem map_toLowerByte_utf8Bytes (c : Char) :
    (utf8Bytes c).map toLowerByte = utf8Bytes (asciiLowerChar c) := by
  by_cases h1 : c.toNat < 0x80
  · by_cases hu : 65 ≤ c.toNat ∧ c.toNat ≤ 90
    · have hval : (c.toNat + 32).isValidChar := isValidChar_of_lt (by omega)
      have htn : (Char.ofNat (c.toNat + 32)).toNat = c.toNat + 32 :=
        toNat_ofNat_valid hval
      have hlhs : (utf8Bytes c).map toLowerByte = [c.toNat + 32] := by
        simp only [utf8Bytes, if_pos h1, List.map]
        unfold toLowerByte
        rw [if_pos (by simp only [Bool.and_eq_true, decide_eq_true_eq]; omega)]
      rw [hlhs]
      unfold asciiLowerChar
      rw [if_pos hu]
      unfold utf8Bytes
      rw [htn, if_pos (by omega)]
    · have hlhs : (utf8Bytes c).map toLowerByte = [c.toNat] := by
        simp only [utf8Bytes, if_pos h1, List.map]
        unfold toLowerByte
        rw [if_neg (by simp only [Bool.and_eq_true, decide_eq_true_eq, not_and]; omega)]
      rw [hlhs]
      unfold asciiLowerChar
      rw [if_neg hu]
      unfold utf8Bytes
      rw [if_pos h1]
  · have hid : asciiLowerChar c = c := by
      unfold asciiLowerChar
      rw [if_neg (by omega)]
    rw [hid]
    by_cases h2 : c.toNat < 0x800
    · show (utf8Bytes c).map toLowerByte = utf8Bytes c
      simp only [utf8Bytes, if_neg h1, if_pos h2, List.map]
      rw [toLowerByte_eq_self (by omega), toLowerByte_eq_self (by omega)]
    · by_cases h3 : c.toNat < 0x10000
      · simp only [utf8Bytes, if_neg h1, if_neg h2, if_pos h3, List.map]
        rw [toLowerByte_eq_self (by omega), toLowerByte_eq_self (by omega),
          toLowerByte_eq_self (by omega)]
      · simp only [utf8Bytes, if_neg h1, if_neg h2, if_neg h3, List.map]
        rw [toLowerByte_eq_self (by omega), toLowerByte_eq_self (by omega),
          toLowerByte_eq_self (by omega), toLowerByte_eq_self (by omega)]

theorem map_toLowerByte_encode (s : Str) :
    (utf8Encode s).map toLowerByte = utf8Encode (s.map asciiLowerChar) := by
  induction s with
  | nil => rfl
  | cons c t ih =>
    show ((utf8Bytes c ++ utf8Encode t).map toLowerByte) = _
    rw [List.map_append, ih, map_toLowerByte_utf8Bytes]
    rfl

/-- The `String::from_utf8(..).unwrap()` inside `ascii_to_lower` never
panics: ASCII-lowercasing preserves UTF-8 well-formedness. -/
theorem ascii_to_lower_isSome (s : Str) : (ascii_to_lower s).isSome = true := by
  unfold ascii_to_lower
  split
  · rfl
  · rw [map_toLowerByte_encode, utf8Decode_encode]
    rfl

theorem getD_set_self {α : Type} (l : List α) (i : Nat) (v d : α)
    (h : i < l.length) : (l.set i v).getD i d = v := by
  rw [List.getD_eq_getElem?_getD, List.getElem?_set_self h]
  rfl

theorem getD_set_ne {α : Type} (l : List α) (i j : Nat) (v d : α)
    (h : i ≠ j) : (l.set i v).getD j d = l.getD j d := by
  rw [List.getD_eq_getElem?_getD, List.getElem?_set_ne h,
    ← List.getD_eq_getElem?_getD]

theorem getD_map_lt {α β : Type} (f : α → β) (l : List α) (i : Nat)
    (d : β) (d' : α) (h : i < l.length) :
    (l.map f).getD i d = f (l.getD i d') := by
  rw [List.getD_eq_getElem?_getD, List.getElem?_map,
    List.getElem?_eq_getElem h, List.getD_eq_getElem?_getD,
    List.getElem?_eq_getElem h]
  rfl

/-- The two writes after the pipelined loop place the pending `r1`, `r2`
into the last two slots; every earlier slot keeps the invariant value. -/
theorem pipeEpilogue_getD (es : List Str) (res : List Bool) (r1 r2 : Bool)
    (hlen : res.length = es.length) (hge : 2 ≤ es.length)
    (hr1 : r1 = is_valid_fast (es.getD (es.length - 2) []) true)
    (hr2 : r2 = is_valid_fast (es.getD (es.length - 1) []) true)
    (hacc : ∀ j, j < es.length - 2 →
      res.getD j false = is_valid_fast (es.getD j []) true) :
    ∀ k, k < es.length →
      ((res.set (es.length - 2) r1).set (es.length - 1) r2).getD k false =
        is_valid_fast (es.getD k []) true := by
  intro k hk
  by_cases hk1 : k = es.length - 1
  · subst hk1
    rw [getD_set_self _ _ _ _ (by simp [hlen]; omega)]
    exact hr2
  · rw [getD_set_ne _ _ _ _ _ (by omega)]
    by_cases hk2 : k = es.length - 2
    · subst hk2
      rw [getD_set_self _ _ _ _ (by omega)]
      exact hr1
    · rw [getD_set_ne _ _ _ _ _ (by omega)]
      exact hacc k (by omega)

/-- Invariant of the pipelined loop: with adequate fuel, registers holding
the two pending results, and the prefix of `results` already correct, every
slot of the final list holds `is_valid_fast` of the matching input. -/
theorem pipeLoop_getD (es : List Str) :
    ∀ (fuel i : Nat) (r1 r2 : Bool) (res : List Bool),
      3 ≤ i → i ≤ es.length → es.length ≤ fuel + i → res.length = es.length →
      r1 = is_valid_fast (es.getD (i - 2) []) true →
      r2 = is_valid_fast (es.getD (i - 1) []) true →
      (∀ j, j < i - 2 → res.getD j false = is_valid_fast (es.getD j []) true) →
      ∀ k, k < es.length →
        (pipeLoop es fuel i r1 r2 res).getD k false =
          is_valid_fast (es.getD k []) true := by
  intro fuel
  induction fuel with
  | zero =>
    intro i r1 r2 res h3 hle hfi hlen hr1 hr2 hacc k hk
    have hi : i = es.length := by omega
    subst hi
    exact pipeEpilogue_getD es res r1 r2 hlen (by omega) hr1 hr2 hacc k hk
  | succ fuel ih =>
    intro i r1 r2 res h3 hle hfi hlen hr1 hr2 hacc k hk
    have hstep : pipeLoop es (fuel + 1) i r1 r2 res =
        if i < es.length then
          pipeLoop es fuel (i + 1) r2 (is_valid_fast (es.getD i []) true)
            (res.set (i - 2) r1)
        else (res.set (es.length - 2) r1).set (es.length - 1) r2 := rfl
    rw [hstep]
    by_cases hi : i < es.length
    · rw [if_pos hi]
      refine ih (i + 1) r2 (is_valid_fast (es.getD i []) true)
        (res.set (i - 2) r1) (by omega) (by omega) (by omega)
        (by simp [hlen]) ?_ ?_ ?_ k hk
      · show r2 = is_valid_fast (es.getD (i + 1 - 2) []) true
        rw [show i + 1 - 2 = i - 1 by omega]
        exact hr2
      · show is_valid_fast (es.getD i []) true =
          is_valid_fast (es.getD (i + 1 - 1) []) true
        rw [show i + 1 - 1 = i by omega]
      · intro j hj
        by_cases hj2 : j = i - 2
        · subst hj2
          rw [getD_set_self _ _ _ _ (by omega)]
          exact hr1
        · rw [getD_set_ne _ _ _ _ _ (by omega)]
          exact hacc j (by omega)
    · rw [if_neg hi]
      have hieq : i = es.length := by omega
      subst hieq
      exact pipeEpilogue_getD es res r1 r2 hlen (by omega) hr1 hr2 hacc k hk

/-- The guarded indexing in `validate_local_part` never panics. -/
theorem validate_local_part_isSome (lp : Str) (flag : Bool) :
    (validate_local_part lp flag).isSome = true := by
  unfold validate_local_part
  simp only []
  cases hb : utf8Encode lp with
  | nil => simp
  | cons b rest =>
    rw [if_neg (by simp)]
    split
    · rfl
    · obtain ⟨bl, hbl⟩ := Option.isSome_iff_exists.mp
        (List.getLast?_isSome.mpr (List.cons_ne_nil b rest))
      rw [List.head?_cons, hbl]
      rfl

/-- The bracket slice in `validate_ip_literal` is in bounds once the string
is at least two characters long. -/
theorem validate_ip_literal_isSome (d : Str) (h2 : 2 ≤ d.length) :
    (validate_ip_literal d).isSome = true := by
  unfold validate_ip_literal
  rw [if_pos h2]
  rfl

/-- A string that both starts with a bracket and ends with the other
bracket has at least two characters. -/
theorem bracket_length {d : Str} (hh : d.head? = some '[')
    (hl : d.getLast? = some ']') : 2 ≤ d.length := by
  match d with
  | [] => simp at hh
  | [c] =>
    simp only [List.head?_cons] at hh
    simp only [List.getLast?_singleton] at hl
    rw [Option.some.injEq] at hh hl
    subst hh
    exact absurd hl (by decide)
  | a :: b :: t => simp

/-- `validate_domain` never reaches a panic: the only `none` inside it is
the bracket slice, guarded by the bracket checks. -/
theorem validate_domain_isSome (d : Str) :
    (validate_domain d).isSome = true := by
  unfold validate_domain
  split
  · rfl
  · split
    · rename_i hbr
      have hh : d.head? = some '[' ∧ d.getLast? = some ']' := by
        simpa using hbr
      exact validate_ip_literal_isSome d (bracket_length hh.1 hh.2)
    · split
      · rfl
      · split <;> rfl

/-- The `@`-scanning loop with a recorded position succeeds only when no
further `@` byte occurs, returning the recorded position. -/
theorem atScanAux_ok_some :
    ∀ (bs : List Nat) (i q p : Nat), atScanAux bs i (some q) = .ok p →
      p = q ∧ 64 ∉ bs := by
  intro bs
  induction bs with
  | nil =>
    intro i q p h
    simp only [atScanAux, Except.ok.injEq] at h
    exact ⟨h.symm, by simp⟩
  | cons b rest ih =>
    intro i q p h
    unfold atScanAux at h
    by_cases hb : (b == 64) = true
    · rw [if_pos hb] at h
      simp at h
    · rw [if_neg hb] at h
      obtain ⟨hp, hmem⟩ := ih (i + 1) q p h
      refine ⟨hp, ?_⟩
      simp only [List.mem_cons, not_or]
      exact ⟨Ne.symm (by simpa using hb), hmem⟩

/-- The `@`-scanning loop starting with no recorded position succeeds
exactly on byte lists with a single `@` byte, returning its position. -/
theorem atScanAux_ok_none :
    ∀ (bs : List Nat) (i p : Nat), atScanAux bs i none = .ok p →
      ∃ l r, bs = l ++ 64 :: r ∧ 64 ∉ l ∧ 64 ∉ r ∧ p = i + l.length := by
  intro bs
  induction bs with
  | nil =>
    intro i p h
    simp [atScanAux] at h
  | cons b rest ih =>
    intro i p h
    unfold atScanAux at h
    by_cases hb : (b == 64) = true
    · rw [if_pos hb] at h
      obtain ⟨hp, hmem⟩ := atScanAux_ok_some rest (i + 1) i p h
      refine ⟨[], rest, ?_, by simp, hmem, by simp [hp]⟩
      simp [show b = 64 by simpa using hb]
    · rw [if_neg hb] at h
      obtain ⟨l, r, hbs, hl, hr, hp⟩ := ih (i + 1) p h
      refine ⟨b :: l, r, by simp [hbs], ?_, hr, by simp [hp]; omega⟩
      simp only [List.mem_cons, not_or]
      exact ⟨Ne.symm (by simpa using hb), hl⟩

theorem atScan_ok {bs : List Nat} {p : Nat} (h : atScan bs = .ok p) :
    ∃ l r, bs = l ++ 64 :: r ∧ 64 ∉ l ∧ 64 ∉ r ∧ p = l.length := by
  obtain ⟨l, r, hbs, hl, hr, hp⟩ := atScanAux_ok_none bs 0 p h
  exact ⟨l, r, hbs, hl, hr, by omega⟩

/-- The byte 64 occurs in the encoding of a scalar value only for `@`
itself (multi-byte encodings use only bytes at or above 0x80). -/
theorem byte64_not_in_bytes {c : Char} (hc : c ≠ '@') : 64 ∉ utf8Bytes c := by
  by_cases h1 : c.toNat < 0x80
  · simp only [utf8Bytes, if_pos h1, List.mem_singleton]
    intro h
    apply hc
    have := congrArg Char.ofNat h.symm
    rwa [Char.ofNat_toNat] at this
  · by_cases h2 : c.toNat < 0x800
    · simp only [utf8Bytes, if_neg h1, if_pos h2]
      simp only [List.mem_cons, List.not_mem_nil, or_false, not_or]
      omega
    · by_cases h3 : c.toNat < 0x10000
      · simp only [utf8Bytes, if_neg h1, if_neg h2, if_pos h3]
        simp only [List.mem_cons, List.not_mem_nil, or_false, not_or]
        omega
      · simp only [utf8Bytes, if_neg h1, if_neg h2, if_neg h3]
        simp only [List.mem_cons, List.not_mem_nil, or_false, not_or]
        omega

theorem byte64_not_in_encode {l : Str} (h : '@' ∉ l) : 64 ∉ utf8Encode l := by
  induction l with
  | nil => simp [utf8Encode]
  | cons c t ih =>
    simp only [List.mem_cons, not_or] at h
    show 64 ∉ utf8Bytes c ++ utf8Encode t
    simp only [List.mem_append, not_or]
    exact ⟨byte64_not_in_bytes (Ne.symm h.1), ih h.2⟩

/-- A byte-level split of an encoded string at an `@` byte (with no earlier
`@` byte) is the encoding of a char-level split at an `@` character: the
slice boundaries of `validate` always fall on character boundaries. -/
theorem encode_split_at64 :
    ∀ (t : Str) (l r : List Nat), utf8Encode t = l ++ 64 :: r → 64 ∉ l →
      ∃ tl tr, t = tl ++ '@' :: tr ∧ utf8Encode tl = l ∧ utf8Encode tr = r := by
  intro t
  induction t with
  | nil =>
    intro l r hbs _
    exact absurd hbs.symm (by simp [utf8Encode])
  | cons c t ih =>
    intro l r hbs hl
    have hcons : utf8Bytes c ++ utf8Encode t = l ++ 64 :: r := by
      rw [← hbs]; simp [utf8Encode]
    by_cases hc : c = '@'
    · subst hc
      have hat : utf8Bytes '@' = [64] := by decide
      rw [hat] at hcons
      match l, hcons with
      | [], hcons =>
        refine ⟨[], t, rfl, rfl, ?_⟩
        simpa using hcons
      | x :: l', hcons =>
        have hx : x = 64 := by
          have h2 := congrArg (fun u => u.head?) hcons
          simp only [List.cons_append, List.head?_cons, Option.some.injEq] at h2
          omega
        exact absurd (by simp [hx]) hl
    · have h64c := byte64_not_in_bytes hc
      have hlen : (utf8Bytes c).length ≤ l.length := by
        by_contra hgt
        push_neg at hgt
        have h64 : (utf8Bytes c ++ utf8Encode t)[l.length]? = some 64 := by
          rw [hcons, List.getElem?_append_right (Nat.le_refl _)]
          simp
        rw [List.getElem?_append_left hgt, List.getElem?_eq_getElem hgt,
          Option.some.injEq] at h64
        exact h64c (h64 ▸ List.getElem_mem hgt)
      have hsplit2 : utf8Bytes c ++ utf8Encode t =
          l.take (utf8Bytes c).length ++ (l.drop (utf8Bytes c).length ++ 64 :: r) := by
        rw [hcons]
        conv_lhs => rw [← List.take_append_drop (utf8Bytes c).length l]
        rw [List.append_assoc]
      obtain ⟨hpre, hsuf⟩ := List.append_inj hsplit2 (by simp [hlen])
      obtain ⟨tl, tr, ht, hetl, hetr⟩ := ih (l.drop (utf8Bytes c).length) r hsuf
        (fun hmem => hl (List.mem_of_mem_drop hmem))
      have hfill : utf8Bytes c ++ l.drop (utf8Bytes c).length = l := by
        conv_rhs => rw [← List.take_append_drop (utf8Bytes c).length l]
        rw [← hpre]
      refine ⟨c :: tl, tr, by rw [ht]; rfl, ?_, hetr⟩
      show utf8Bytes c ++ utf8Encode tl = l
      rw [hetl, hfill]

/-- On a successful validation, the `original` field is the trimmed input
and the SMTPUTF8 flag is exactly the non-ASCII-ness of the stored local
part; both read off the single success branch of `validate`. -/
theorem validate_ok_core {email : Str} {flag : Bool} {r : ValidatedEmail}
    (h : validate email flag = some (.ok r)) :
    r.original = rustTrim email ∧ r.smtputf8 = !(isAsciiStr r.local_part) := by
  unfold validate at h
  try simp only [] at h
  repeat' (split at h)
  all_goals try simp at h
  all_goals (subst h; exact ⟨rfl, rfl⟩)

/-! ## Claim theorems -/

/-- Claim C1.  The claim is false on the code: the boolean entry point
`is_valid` disagrees with `validate(..).is_ok()`.  The SIMD pre-screen
accepts any printable-ASCII string of 32 bytes or more with one `@` (not at
either end) and a dot in the domain — it never checks dot placement or
character classes — and the lookup fast path returns `Some(true)` for any
well-charactered address whose domain is in `COMMON_DOMAINS` before running
its dot checks.  Both tiers accept addresses the full validator rejects. -/
theorem c1_fast_tier_disagrees_with_validate :
    is_valid "aaaaaaaaaaaaaaaa..aa@bbbbbbbbbbb.com".data true = true ∧
    validate "aaaaaaaaaaaaaaaa..aa@bbbbbbbbbbb.com".data true =
      some (.error .consecutiveDots) ∧
    is_valid ".a@gmail.com".data true = true ∧
    validate ".a@gmail.com".data true = some (.error .leadingDot) := by
  refine ⟨?_, ?_, ?_, ?_⟩ <;> decide

/-- Claim C2.  The claim is false on the code: the zero-copy scanner is not
a subset of the full validator.  Its `LocalStart` arm moves ANY byte other
than a dot to `Local` without consulting the character class, so
`"(a@b.co"` is accepted by `validate_no_alloc` (and hence by the core
crate's `is_valid`) while `validate` rejects it for either flag value. -/
theorem c2_zero_copy_scanner_not_subset :
    core_is_valid "(a@b.co".data = true ∧
    validate "(a@b.co".data true = some (.error .invalidCharacter) ∧
    validate "(a@b.co".data false = some (.error .invalidCharacter) := by
  refine ⟨?_, ?_, ?_⟩ <;> decide

/-- Claim C3.  The canonical example of the spec: case of the domain is
preserved in `ascii_domain`, lowercased only in `normalized`, and the
SMTPUTF8 flag stays off for the pure-ASCII local part. -/
theorem c3_canonical_example :
    validate "User.Name+tag@Example.COM".data true =
      some (.ok {
        original := "User.Name+tag@Example.COM".data
        local_part := "User.Name+tag".data
        domain := "Example.COM".data
        normalized := "User.Name+tag@example.com".data
        ascii_domain := "Example.COM".data
        smtputf8 := false }) := by decide

/-- Claim C4.  The claim is false on the code: normalization is not
idempotent on bracketed IPv6 literals.  `ascii_to_lower` rewrites the
`IPv6:` tag to `ipv6:`, and re-validation then tries to parse
`ipv6:::1` as a dotted IPv4 address and fails with `InvalidDomain`. -/
theorem c4_normalization_not_idempotent :
    validate "a@[IPv6:::1]".data true =
      some (.ok {
        original := "a@[IPv6:::1]".data
        local_part := "a".data
        domain := "[IPv6:::1]".data
        normalized := "a@[ipv6:::1]".data
        ascii_domain := "[IPv6:::1]".data
        smtputf8 := false }) ∧
    validate "a@[ipv6:::1]".data true = some (.error .invalidDomain) := by
  refine ⟨?_, ?_⟩ <;> decide

set_option maxRecDepth 40000 in
/-- Claim C5, counterexample.  The claim is false on the code: the 253-byte
bound is checked on the domain as written, before the IDNA mapping.  The
40-label domain `c5dom` is 119 bytes as written but its ASCII form is 319
bytes, yet the address validates instead of failing with `DomainTooLong`. -/
theorem c5_counterexample_post_idna_length_not_checked :
    domain_to_ascii c5dom = some c5post ∧
    utf8Len c5post = 319 ∧
    utf8Len c5dom = 119 ∧
    validate ('a' :: '@' :: c5dom) true =
      some (.ok {
        original := 'a' :: '@' :: c5dom
        local_part := ['a']
        domain := c5dom
        normalized := 'a' :: '@' :: c5post
        ascii_domain := c5post
        smtputf8 := false }) := by
  refine ⟨?_, ?_, ?_, ?_⟩ <;> decide

set_option maxRecDepth 40000 in
/-- Claim C5, amended.  The 253-byte domain bound is enforced on the raw
domain as written (before the IDNA ASCII mapping): every unbracketed domain
longer than 253 bytes fails with `DomainTooLong`, a 253-byte otherwise-legal
ASCII domain validates, and a 254-byte one fails. -/
theorem c5_domain_limit_pre_idna :
    (∀ d : Str, (d.head? == some '[' && d.getLast? == some ']') = false →
        253 < utf8Len d → validate_domain d = some (.error .domainTooLong)) ∧
    validate_domain d253 = some (.ok d253) ∧
    validate_domain d254 = some (.error .domainTooLong) := by
  refine ⟨?_, by decide, by decide⟩
  intro d hbr hlen
  have hne : d.isEmpty = false := by
    cases d with
    | nil => simp [utf8Len, utf8Encode] at hlen
    | cons a t => rfl
  unfold validate_domain
  rw [if_neg (by simp [hne]), if_neg (by simp [hbr]), if_pos hlen]

set_option maxRecDepth 40000 in
/-- Witness for the amended C5 theorem at the concrete 254-byte domain. -/
theorem c5_domain_limit_pre_idna_witness :
    ((d254.head? == some '[' && d254.getLast? == some ']') = false) ∧
    253 < utf8Len d254 ∧
    validate_domain d254 = some (.error .domainTooLong) :=
  ⟨by decide, by decide, c5_domain_limit_pre_idna.1 d254 (by decide) (by decide)⟩

/-- Claim C6.  The claim is false on the code: in `LocalStart` the scanner
moves any byte except a dot — including `@` (64) and the non-local byte
40, an opening parenthesis — to `Local`, and in `DomainStart` it moves any
byte other than dot, hyphen and at-sign — again including byte 40 — to
`Domain`; neither start state consults its character class.  Consequently
`"a@(b.co"` is accepted outright. -/
theorem c6_start_state_transitions_diverge :
    zcStep .localStart 40 0 0 = some (.localState, 0, 0) ∧
    zcStep .localStart 64 0 0 = some (.localState, 1, 0) ∧
    zcStep .domainStart 40 1 0 = some (.domainState, 1, 0) ∧
    validate_no_alloc "a@(b.co".data = true ∧
    validate "a@(b.co".data true = some (.error .invalidCharacter) := by
  refine ⟨?_, ?_, ?_, ?_, ?_⟩ <;> decide

/-- Claim C7.  For every input on which `validate` succeeds, the returned
`smtputf8` flag is true exactly when the stored local part has a byte at or
above 128 in its UTF-8 form; the domain plays no role. -/
theorem c7_smtputf8_iff_nonascii_local (s : Str) (flag : Bool)
    (r : ValidatedEmail) (h : validate s flag = some (.ok r)) :
    (r.smtputf8 = true ↔ (utf8Encode r.local_part).any (fun b => 128 ≤ b) = true) := by
  obtain ⟨-, hs⟩ := validate_ok_core h
  rw [hs]
  unfold isAsciiStr
  rw [Bool.not_eq_true', List.all_eq_false, List.any_eq_true]
  simp only [decide_eq_true_eq, not_lt]

/-- Witness for C7 at `a@b.com` with the flag on. -/
theorem c7_smtputf8_iff_nonascii_local_witness :
    validate "a@b.com".data true = some (.ok c7rec) ∧
    (c7rec.smtputf8 = true ↔
      (utf8Encode c7rec.local_part).any (fun b => 128 ≤ b) = true) :=
  ⟨by decide, c7_smtputf8_iff_nonascii_local "a@b.com".data true c7rec (by decide)⟩

/-- Claim C10.  Validation acts on the whitespace-trimmed input: the result
of `validate` on any string equals its result on the trimmed string, and on
success the `original` field holds the trimmed string (which differs from
the caller's argument when the argument had surrounding whitespace). -/
theorem c10_original_is_trimmed_input (s : Str) (flag : Bool) :
    validate s flag = validate (rustTrim s) flag ∧
    ∀ r : ValidatedEmail, validate s flag = some (.ok r) →
      r.original = rustTrim s := by
  constructor
  · conv_lhs => rw [validate]
    conv_rhs => rw [validate]
    rw [rustTrim_idem]
  · intro r h
    exact (validate_ok_core h).1

/-- Witness for C10 at a padded copy of `a@b.com`. -/
theorem c10_original_is_trimmed_input_witness :
    validate "  a@b.com ".data true = some (.ok c10rec) ∧
    c10rec.original = rustTrim "  a@b.com ".data :=
  ⟨by decide,
    (c10_original_is_trimmed_input "  a@b.com ".data true).2 c10rec (by decide)⟩

/-- Claim C9, counterexample.  The claim is false on the code: a batch of 17
addresses takes the pipelined path, which hard-codes
`allow_smtputf8 = true`, so with the flag off the batch answers differ from
the element-wise map of `is_valid`. -/
theorem c9_counterexample_batch_ignores_flag :
    batch_is_valid c9emails false = List.replicate 17 true ∧
    c9emails.map (fun e => is_valid e false) = List.replicate 17 false := by
  refine ⟨?_, ?_⟩ <;> decide

/-- Claim C8.  `validate` is total: for every input string and flag it
returns `some` outcome (an `Ok` record or a typed error) — every modelled
panic point (the `@` slices, the guarded local-part indexing, the bracket
slice, and the `from_utf8` unwrap in `ascii_to_lower`) is unreachable. -/
theorem c8_validate_total (s : Str) (flag : Bool) :
    (validate s flag).isSome = true := by
  unfold validate
  simp only []
  split
  · rfl
  · split
    · rfl
    · rename_i at_pos hscan
      obtain ⟨l, r, hbs, hl, hr, hp⟩ := atScan_ok hscan
      obtain ⟨tl, tr, ht, hetl, hetr⟩ := encode_split_at64 _ l r hbs hl
      have htake : utf8Decode ((utf8Encode (rustTrim s)).take at_pos) = some tl := by
        rw [hbs, hp, List.take_left, ← hetl, utf8Decode_encode]
      have hdropd : utf8Decode ((utf8Encode (rustTrim s)).drop (at_pos + 1)) =
          some tr := by
        rw [hbs, hp]
        rw [show l ++ 64 :: r = (l ++ [64]) ++ r by simp]
        rw [show l.length + 1 = (l ++ [64]).length by simp]
        rw [List.drop_left, ← hetr, utf8Decode_encode]
      split
      · rename_i lp1 d hlp hd
        rw [htake, Option.some.injEq] at hlp
        subst hlp
        split
        · rename_i hnone
          have hcon := validate_local_part_isSome tl flag
          rw [hnone] at hcon
          simp at hcon
        · rfl
        · split
          · rename_i hnone
            have hcon := validate_domain_isSome d
            rw [hnone] at hcon
            simp at hcon
          · rfl
          · rename_i ad _
            split
            · rename_i hnone
              have hcon := ascii_to_lower_isSome ad
              rw [hnone] at hcon
              simp at hcon
            · rfl
      · rename_i hne
        exact absurd (hne tl tr htake hdropd) (by simp)

/-- Claim C9, amended.  Batch validation is an order-preserving element-wise
map of `is_valid` whenever the flag is `true` (any length, including the
pipelined path taken above 16 items) or the list has at most 16 items (any
flag); the pipelined path hard-codes `allow_smtputf8 = true`, so longer
lists with the flag off are not covered. -/
theorem c9_batch_elementwise_map (emails : List Str) (flag : Bool) (i : Nat)
    (hcase : emails.length ≤ 16 ∨ flag = true) (hi : i < emails.length) :
    (batch_is_valid emails flag).getD i false =
      is_valid (emails.getD i []) flag := by
  unfold batch_is_valid is_valid
  by_cases h16 : 16 < emails.length
  · rw [if_pos h16]
    have hflag : flag = true := by
      rcases hcase with h | h
      · omega
      · exact h
    subst hflag
    unfold pipelined_validation
    rw [if_neg (by omega)]
    refine pipeLoop_getD emails emails.length 3 _ _ _ (by omega) (by omega)
      (by omega) (by simp) rfl rfl ?_ i hi
    intro j hj
    have hj0 : j = 0 := by omega
    subst hj0
    rw [getD_set_self _ _ _ _ (by simp; omega)]
  · rw [if_neg h16]
    exact getD_map_lt _ emails i false [] hi

/-- Witness for the amended C9 theorem on a one-element batch. -/
theorem c9_batch_elementwise_map_witness :
    (([("a@b.com").data].length ≤ 16 ∨ True) ∧ 0 < [("a@b.com").data].length) ∧
    (batch_is_valid [("a@b.com").data] true).getD 0 false =
      is_valid ([("a@b.com").data].getD 0 []) true :=
  ⟨⟨Or.inl (by decide), by decide⟩,
    c9_batch_elementwise_map [("a@b.com").data] true 0 (Or.inr rfl) (by decide)⟩

end Pyval
